import Mathlib

/-!
Shallow embedding of the faucet content dispatcher (src/main.rs): the rule
model ("scorers"), the score-aggregation fold, the ranking and decision
procedure, threshold validation, and the interactive menu resolution.

External effects are modelled as oracle parameters:
* regex compilation and matching: a function `R : String → Option (String → Bool)`
  (`Regex::new` returning `Ok` gives `some` of the matcher, `Err` gives `none`);
* check-command exit statuses: a list of booleans consumed one per
  command-scorer, mirroring the single `cmd.status()` call per rule;
* the `file --mime-type` output and the dmenu reply: plain string parameters.

Rust `i32` scores are modelled as `Int` (the claims are about threshold
arithmetic on the integers, not about wrap-around).
-/

namespace Faucet

/-- Whitespace predicate used by the string trimming in the source
(Rust `char::is_whitespace`; modelled by `Char.isWhitespace`). -/
def isWs (c : Char) : Bool := c.isWhitespace

/-- Rust `str::trim_end`: remove trailing whitespace only (src/main.rs line 138). -/
def trimEnd (s : String) : String := ⟨(s.data.reverse.dropWhile isWs).reverse⟩

/-- Rust `str::trim`: remove leading and trailing whitespace
(src/main.rs lines 143 and 465). -/
def trimBoth (s : String) : String :=
  ⟨((s.data.dropWhile isWs).reverse.dropWhile isWs).reverse⟩

/-- A candidate command from the configuration (struct `Command`, src/main.rs lines 45-49). -/
structure Command where
  display : String
  command : String
deriving DecidableEq, Repr

/-- The rule variants (enum `Scorer`, src/main.rs lines 9-30). -/
inductive Scorer where
  | Regex (regex : String) (command_label : String) (score_change : Int)
  | Command (command : String) (command_label : String) (score_change : Int)
  | RegexMulti (regex : String) (scores : List (String × Int))
  | CommandMulti (command : String) (scores : List (String × Int))
deriving DecidableEq, Repr

/-- Labels referenced by a scorer (`Scorer::command_labels`, src/main.rs lines 32-43). -/
def Scorer.command_labels : Scorer → List String
  | .Regex _ lbl _ => [lbl]
  | .Command _ lbl _ => [lbl]
  | .RegexMulti _ scores => scores.map (fun p => p.1)
  | .CommandMulti _ scores => scores.map (fun p => p.1)

/-- Default for `auto_select_min_threshold` (src/main.rs lines 51-53). -/
def default_min_threshold : Int := 10

/-- Default for `auto_select_max_threshold` (src/main.rs lines 55-57). -/
def default_max_threshold : Int := 100

/-- The configuration (struct `Config`, src/main.rs lines 59-67). The `IndexMap`
of commands is modelled as an insertion-ordered association list. -/
structure Config where
  commands : List (String × Command)
  scorers : List Scorer
  auto_select_min_threshold : Int
  auto_select_max_threshold : Int

/-- Serde deserialization of the two threshold fields: an absent field takes
the `serde(default = ...)` value (src/main.rs lines 63-66). -/
def Config.ofFields (commands : List (String × Command)) (scorers : List Scorer)
    (minField maxField : Option Int) : Config :=
  ⟨commands, scorers, minField.getD default_min_threshold,
    maxField.getD default_max_threshold⟩

/-- Scorer labels that are missing from the command table (the
`missing_commands` collection in `validate_environment`, src/main.rs lines 91-116). -/
def missingLabels (c : Config) : List String :=
  c.scorers.flatMap (fun s =>
    s.command_labels.filter (fun l => !(c.commands.any (fun p => p.1 == l))))

/-- The configuration checks of `validate_environment` (src/main.rs lines 78-128):
threshold ordering, then scorer-label existence. (The `which`-based check for
external binaries touches the host system and is a collaborator concern,
outside the configuration semantics modelled here.) -/
def validate_environment (c : Config) : Except String Unit :=
  if c.auto_select_min_threshold ≥ c.auto_select_max_threshold then
    Except.error "Bad auto select values: min >= max"
  else if (missingLabels c).isEmpty then Except.ok ()
  else Except.error "Scorers reference non-existent commands"

/-- The input payload (enum `Data`, src/main.rs lines 130-133). -/
inductive Data where
  | Text (s : String)
  | Binary (bytes : List Nat)

/-- `Data::get_text_for_matching` (src/main.rs lines 136-146): for `Text` the
payload with trailing whitespace removed; for `Binary` the trimmed stdout of
`file --mime-type -b` run on the persisted temp file, supplied here as the
oracle parameter `fileMimeOut`. -/
def Data.get_text_for_matching (fileMimeOut : String) : Data → String
  | .Text s => trimEnd s
  | .Binary _ => trimBoth fileMimeOut

/-- `Data::is_text` (src/main.rs lines 156-158). -/
def Data.is_text : Data → Bool
  | .Text _ => true
  | .Binary _ => false

/-- The score table: label → (command, running score), insertion-ordered
(the `scored_commands : IndexMap<String, (Command, i32)>` of src/main.rs line 301). -/
abbrev ScoreTable := List (String × Command × Int)

/-- Fresh score table with every configured candidate at 0 (src/main.rs lines 301-305). -/
def initTable (commands : List (String × Command)) : ScoreTable :=
  commands.map (fun p => (p.1, p.2, 0))

/-- `scored_commands.get_mut(label)` followed by `*score += d`: add `d` to the
score of the first entry with the given label; no entry, no change
(src/main.rs lines 315-324 and analogues). -/
def addDelta (table : ScoreTable) (label : String) (d : Int) : ScoreTable :=
  match table with
  | [] => []
  | e :: rest =>
    if e.1 == label then (e.1, e.2.1, e.2.2 + d) :: rest
    else e :: addDelta rest label d

/-- Regex predicate: `Regex::new(regex)` then `is_match` on the matching text;
a failed compilation is a non-match (src/main.rs lines 313-314). -/
def regexMatch (R : String → Option (String → Bool)) (pat text : String) : Bool :=
  match R pat with
  | some m => m text
  | none => false

/-- Apply every (label, delta) pair of a multi-target scorer, in order
(src/main.rs lines 364-375 and 395-406). -/
def applyMulti (scores : List (String × Int)) (table : ScoreTable) : ScoreTable :=
  scores.foldl (fun tb p => addDelta tb p.1 p.2) table

/-- One step of the scoring fold (the body of the `for_each` at
src/main.rs lines 307-409). Command scorers consume exactly one check result
(the single `cmd.status()` call); an exhausted stream reads as a launch
failure, hence a non-match. -/
def runScorer (R : String → Option (String → Bool)) (t : String)
    (table : ScoreTable) (checks : List Bool) : Scorer → ScoreTable × List Bool
  | .Regex r lbl d =>
    (if regexMatch R r t then addDelta table lbl d else table, checks)
  | .Command _ lbl d =>
    (if checks.headD false then addDelta table lbl d else table, checks.tail)
  | .RegexMulti r scores =>
    (if regexMatch R r t then applyMulti scores table else table, checks)
  | .CommandMulti _ scores =>
    (if checks.headD false then applyMulti scores table else table, checks.tail)

/-- The full scoring fold over `config.scorers` in configuration order
(src/main.rs lines 307-409), threading the check-result stream. -/
def runScorers (R : String → Option (String → Bool)) (t : String) :
    List Scorer → ScoreTable → List Bool → ScoreTable × List Bool
  | [], table, checks => (table, checks)
  | s :: ss, table, checks =>
    let r := runScorer R t table checks s
    runScorers R t ss r.1 r.2

/-- Score recorded for a label: the value at the first matching entry
(`IndexMap` lookup), 0 when absent. -/
def scoreOf : ScoreTable → String → Int
  | [], _ => 0
  | e :: rest, label => if e.1 == label then e.2.2 else scoreOf rest label

/-- Whether a label is present in the score table. -/
def keyPresent (table : ScoreTable) (label : String) : Bool :=
  table.any (fun e => e.1 == label)

/-- The (label, delta) effects a scorer applies when its predicate matches. -/
def scorerEffects : Scorer → List (String × Int)
  | .Regex _ lbl d => [(lbl, d)]
  | .Command _ lbl d => [(lbl, d)]
  | .RegexMulti _ scores => scores
  | .CommandMulti _ scores => scores

/-- Whether a scorer runs a check command, consuming one exit status per run. -/
def consumesCheck : Scorer → Bool
  | .Regex _ _ _ => false
  | .Command _ _ _ => true
  | .RegexMulti _ _ => false
  | .CommandMulti _ _ => true

/-- Number of check-command executions a scorer list performs. -/
def checksUsed (ss : List Scorer) : Nat := (ss.filter consumesCheck).length

/-- Predicate outcome of the scorer at the head of the run: a pattern match
for regex scorers, the next check-command exit status for command scorers. -/
def scorerMatched (R : String → Option (String → Bool)) (t : String)
    (checks : List Bool) : Scorer → Bool
  | .Regex r _ _ => regexMatch R r t
  | .Command _ _ _ => checks.headD false
  | .RegexMulti r _ => regexMatch R r t
  | .CommandMulti _ _ => checks.headD false

/-- Pair every scorer with its predicate outcome, threading the check-result
stream exactly as the run does. -/
def annotate (R : String → Option (String → Bool)) (t : String) :
    List Scorer → List Bool → List (Scorer × Bool)
  | [], _ => []
  | s :: ss, checks =>
    (s, scorerMatched R t checks s)
      :: annotate R t ss (if consumesCheck s then checks.tail else checks)

/-- Sum of the deltas in an effect list that target the given label. -/
def sumDeltasFor (label : String) (effects : List (String × Int)) : Int :=
  ((effects.filter (fun q => q.1 == label)).map (fun q => q.2)).sum

/-- Contribution of one annotated scorer to a label: its targeted deltas when
its predicate matched, 0 otherwise. -/
def deltaFor (label : String) (p : Scorer × Bool) : Int :=
  if p.2 then sumDeltasFor label (scorerEffects p.1) else 0

/-- Total contribution of an annotated scorer list to a label. -/
def totalDelta (label : String) (ps : List (Scorer × Bool)) : Int :=
  (ps.map (deltaFor label)).sum

/-- One entry of the ranked list: `(index, (label, (command, score)))`, as
produced by `scored_commands.iter().enumerate()` (src/main.rs line 412). -/
abbrev RankEntry := Nat × String × Command × Int

/-- Score component of a ranked entry (`sorted_commands[i].1 .1 .1` in the source). -/
def entryScore (e : RankEntry) : Int := e.2.2.2

/-- Placeholder entry for out-of-range indexing; never produced by the pipeline. -/
def dummyEntry : RankEntry := (0, "", ⟨"", ""⟩, 0)

/-- The enumerate-and-filter step (src/main.rs lines 410-414): entries of the
score table with their configuration index, restricted to strictly positive scores. -/
def positiveEntries (table : ScoreTable) : List RankEntry :=
  table.enum.filter (fun e => decide (0 < entryScore e))

/-- The `sort_by` comparator (src/main.rs line 415) as a non-strict order:
`entryLe a b` holds when the comparator does not place `a` after `b`, i.e.
`b.score.cmp(&a.score).then_with(|| a.index.cmp(&b.index)) != Greater`:
score descending, ties by enumeration index ascending. -/
def entryLe (a b : RankEntry) : Prop :=
  entryScore b < entryScore a ∨ (entryScore a = entryScore b ∧ a.1 ≤ b.1)

instance : DecidableRel entryLe := fun a b =>
  inferInstanceAs (Decidable (entryScore b < entryScore a
    ∨ (entryScore a = entryScore b ∧ a.1 ≤ b.1)))

instance : IsTotal RankEntry entryLe :=
  ⟨fun _ _ => by unfold entryLe; omega⟩

instance : IsTrans RankEntry entryLe :=
  ⟨fun _ _ _ hab hbc => by unfold entryLe at *; omega⟩

/-- The sorted shortlist (src/main.rs lines 410-415). Rust `sort_by` is a
stable sort by the total preorder `entryLe`; `List.insertionSort` is stable
for the same orientation, and on the distinct-index entries produced by
`enumerate` the comparator is antisymmetric, so the result is the same list. -/
def sorted_commands (table : ScoreTable) : List RankEntry :=
  List.insertionSort entryLe (positiveEntries table)

/-- Outcome of the decision procedure (the `match sorted_commands.len()` at
src/main.rs lines 417-486): exit without launching, launch the top candidate
without interaction, or show the shortlist in a menu. -/
inductive Outcome where
  | noop
  | autoSelect (e : RankEntry)
  | interactive (l : List RankEntry)
deriving DecidableEq

/-- The decision procedure on the sorted, filtered list (src/main.rs lines
417-427): empty list is a no-op; the guard
`(n == 1 && L[0].score > min) || (n >= 2 && L[0].score > max + L[1].score && L[0].score > 10)`
selects auto-launch; everything else goes to the menu. -/
def decide_outcome (minT maxT : Int) (L : List RankEntry) : Outcome :=
  if L.length = 0 then .noop
  else if (L.length = 1 ∧ entryScore (L.getD 0 dummyEntry) > minT)
      ∨ (2 ≤ L.length
          ∧ entryScore (L.getD 0 dummyEntry) > maxT + entryScore (L.getD 1 dummyEntry)
          ∧ entryScore (L.getD 0 dummyEntry) > 10) then
    .autoSelect (L.getD 0 dummyEntry)
  else .interactive L

/-- Resolution of the dmenu reply (src/main.rs lines 465-468): trim the reply,
then find the first entry of the full score table whose `display` equals it. -/
def resolveSelection (scored : ScoreTable) (menuReply : String) :
    Option (String × Command × Int) :=
  scored.find? (fun e => e.2.1.display == trimBoth menuReply)

/-- The command actually launched for a given outcome (src/main.rs lines
428-486): auto-select launches the top entry's command; the interactive
branch resolves the menu reply against the full `scored_commands` table —
not against the presented list — and launches the match, if any. -/
def launchedCommand (scored : ScoreTable) (menuReply : String) :
    Outcome → Option Command
  | .noop => none
  | .autoSelect e => some e.2.2.1
  | .interactive _ => (resolveSelection scored menuReply).map (fun e => e.2.1)

/-- The run pipeline of `main` after data acquisition (src/main.rs lines
178-447): validate the configuration, derive the matching text, fold the
scorers, rank, decide. Oracles: `R` for regex compilation, `fileMimeOut` for
the MIME probe, `checks` for check-command exit statuses. -/
def faucetRun (c : Config) (R : String → Option (String → Bool)) (d : Data)
    (fileMimeOut : String) (checks : List Bool) : Except String Outcome :=
  match validate_environment c with
  | .error e => .error e
  | .ok _ =>
    let t := d.get_text_for_matching fileMimeOut
    let table := (runScorers R t c.scorers (initTable c.commands) checks).1
    .ok (decide_outcome c.auto_select_min_threshold c.auto_select_max_threshold
      (sorted_commands table))

end Faucet

namespace Faucet

example : scoreOf (addDelta (initTable [("a", ⟨"A", "a-cmd"⟩)]) "a" 5) "a" = 5 := by decide

example :
    sorted_commands [("z", ⟨"Z", "zc"⟩, 5), ("a", ⟨"A", "ac"⟩, 5), ("b", ⟨"B", "bc"⟩, 0)]
      = [(0, "z", ⟨"Z", "zc"⟩, 5), (1, "a", ⟨"A", "ac"⟩, 5)] := by decide

example :
    decide_outcome 10 100 [(0, "a", ⟨"A", "ac"⟩, 120), (1, "b", ⟨"B", "bc"⟩, 5)]
      = .autoSelect (0, "a", ⟨"A", "ac"⟩, 120) := by decide

example :
    decide_outcome 10 100 [(0, "a", ⟨"A", "ac"⟩, 60), (1, "b", ⟨"B", "bc"⟩, 55)]
      = .interactive [(0, "a", ⟨"A", "ac"⟩, 60), (1, "b", ⟨"B", "bc"⟩, 55)] := by decide

lemma nodup_fst_positiveEntries (table : ScoreTable) :
    ((positiveEntries table).map Prod.fst).Nodup := by
  have hsub : List.Sublist (positiveEntries table) table.enum :=
    List.filter_sublist _
  have hm : List.Sublist ((positiveEntries table).map Prod.fst)
      (table.enum.map Prod.fst) := hsub.map _
  rw [List.enum_map_fst] at hm
  exact (List.nodup_range _).sublist hm

lemma pairwise_ne_fst_sorted_commands (table : ScoreTable) :
    (sorted_commands table).Pairwise (fun a b => a.1 ≠ b.1) := by
  have hperm : List.Perm (sorted_commands table) (positiveEntries table) :=
    List.perm_insertionSort _ _
  have hnd : ((sorted_commands table).map Prod.fst).Nodup := by
    rw [(hperm.map Prod.fst).nodup_iff]
    exact nodup_fst_positiveEntries table
  rw [List.Nodup, List.pairwise_map] at hnd
  exact hnd

/-- C1 (counterexample): with the candidates configured in the order
`z` before `a`, both ending at score 5, the sorted shortlist keeps `z`
first even though `"a"` is lexicographically smaller — the tie-break is
the configuration index, not the label. -/
theorem sorted_commands_label_tiebreak_cex :
    sorted_commands [("z", ⟨"Z", "zc"⟩, 5), ("a", ⟨"A", "ac"⟩, 5)]
        = [(0, "z", ⟨"Z", "zc"⟩, 5), (1, "a", ⟨"A", "ac"⟩, 5)]
      ∧ ("a" : String) < "z"
      ∧ entryScore (0, "z", ⟨"Z", "zc"⟩, 5) = entryScore (1, "a", ⟨"A", "ac"⟩, 5)
      ∧ 0 < entryScore (0, "z", ⟨"Z", "zc"⟩, 5) := by
  refine ⟨by decide, ?_, by decide, by decide⟩
  rw [String.lt_iff_toList_lt]
  decide

/-- Sample two-entry shortlist with a dominant top score, used by witnesses. -/
def sampleHigh : List RankEntry := [(0, "a", ⟨"A", "ac"⟩, 120), (1, "b", ⟨"B", "bc"⟩, 5)]

/-- Sample single entry below the default min threshold, used by witnesses. -/
def sampleLow : RankEntry := (0, "a", ⟨"A", "ac"⟩, 5)

/-- C2: with at least two entries in the shortlist, the top entry is
auto-selected exactly when its score exceeds `max_threshold` plus the
runner-up's score and also exceeds the literal 10; the outcome does not
depend on `min_threshold` at all in this case. -/
theorem auto_select_multi_iff (minT minT2 maxT : Int) (L : List RankEntry)
    (h : 2 ≤ L.length) :
    (decide_outcome minT maxT L = .autoSelect (L.getD 0 dummyEntry)
      ↔ (maxT + entryScore (L.getD 1 dummyEntry) < entryScore (L.getD 0 dummyEntry)
          ∧ 10 < entryScore (L.getD 0 dummyEntry)))
    ∧ decide_outcome minT maxT L = decide_outcome minT2 maxT L := by
  have h0 : ¬(L.length = 0) := by omega
  constructor
  · unfold decide_outcome
    rw [if_neg h0]
    split_ifs with hcond
    · simp only [true_iff]
      omega
    · exact iff_of_false (by simp) (by omega)
  · unfold decide_outcome
    rw [if_neg h0, if_neg h0]
    split_ifs with ha hb hb
    · rfl
    · omega
    · omega
    · rfl

theorem auto_select_multi_iff_witness :
    2 ≤ sampleHigh.length
    ∧ ((decide_outcome 10 100 sampleHigh = .autoSelect (sampleHigh.getD 0 dummyEntry)
        ↔ (100 + entryScore (sampleHigh.getD 1 dummyEntry)
              < entryScore (sampleHigh.getD 0 dummyEntry)
            ∧ 10 < entryScore (sampleHigh.getD 0 dummyEntry)))
      ∧ decide_outcome 10 100 sampleHigh = decide_outcome 37 100 sampleHigh) :=
  ⟨by decide, auto_select_multi_iff 10 37 100 sampleHigh (by decide)⟩

/-- C3: a single-entry shortlist is auto-selected exactly when its score
strictly exceeds `min_threshold`; at or below the threshold the outcome is
interactive, presenting that single entry to the menu — not a no-op. -/
theorem single_candidate_policy (minT maxT : Int) (e : RankEntry) :
    (decide_outcome minT maxT [e] = .autoSelect e ↔ minT < entryScore e)
    ∧ (entryScore e ≤ minT → decide_outcome minT maxT [e] = .interactive [e]) := by
  have hlen : ([e] : List RankEntry).length = 1 := rfl
  have hg0 : ([e] : List RankEntry).getD 0 dummyEntry = e := rfl
  have hg1 : ([e] : List RankEntry).getD 1 dummyEntry = dummyEntry := rfl
  unfold decide_outcome
  simp only [hlen, hg0, hg1]
  rw [if_neg (show ¬(1 = 0) by omega)]
  constructor
  · split_ifs with hcond
    · refine iff_of_true rfl ?_
      simp only [true_and] at hcond
      omega
    · refine iff_of_false (by simp) ?_
      simp only [true_and] at hcond
      omega
  · intro hle
    split_ifs with hcond
    · simp only [true_and] at hcond
      omega
    · rfl

theorem single_candidate_policy_witness :
    (decide_outcome 10 100 [sampleLow] = .autoSelect sampleLow
      ↔ (10 : Int) < entryScore sampleLow)
    ∧ (entryScore sampleLow ≤ 10 →
        decide_outcome 10 100 [sampleLow] = .interactive [sampleLow]) :=
  single_candidate_policy 10 100 sampleLow

/-- C4: the shortlist holds exactly the enumerated candidates whose final
score is strictly positive; an empty shortlist decides the no-op outcome,
under which no command is launched. -/
theorem shortlist_positive_and_empty_noop (table : ScoreTable) (minT maxT : Int)
    (reply : String) :
    (∀ e : RankEntry, e ∈ sorted_commands table ↔ (e ∈ table.enum ∧ 0 < entryScore e))
    ∧ (sorted_commands table = [] →
        decide_outcome minT maxT (sorted_commands table) = .noop)
    ∧ launchedCommand table reply .noop = none := by
  refine ⟨fun e => ?_, fun hnil => ?_, rfl⟩
  · unfold sorted_commands positiveEntries
    rw [List.mem_insertionSort, List.mem_filter, decide_eq_true_eq]
  · rw [hnil]
    rfl

theorem shortlist_positive_and_empty_noop_witness :
    (∀ e : RankEntry,
        e ∈ sorted_commands [("a", ⟨"A", "ac"⟩, 0)]
          ↔ (e ∈ ([("a", ⟨"A", "ac"⟩, 0)] : ScoreTable).enum ∧ 0 < entryScore e))
    ∧ (sorted_commands [("a", ⟨"A", "ac"⟩, 0)] = [] →
        decide_outcome 10 100 (sorted_commands [("a", ⟨"A", "ac"⟩, 0)]) = .noop)
    ∧ launchedCommand [("a", ⟨"A", "ac"⟩, 0)] "r" .noop = none :=
  shortlist_positive_and_empty_noop [("a", ⟨"A", "ac"⟩, 0)] 10 100 "r"

/-- C1 (amended): the ranked shortlist is sorted by score descending, and any
two entries with equal scores are ordered by configuration index ascending;
this is a strict total order on the entries, hence a deterministic order for
identical input. -/
theorem sorted_commands_strict_order (table : ScoreTable) :
    (sorted_commands table).Pairwise
      (fun a b => entryScore b < entryScore a
        ∨ (entryScore a = entryScore b ∧ a.1 < b.1)) := by
  have hs : (sorted_commands table).Pairwise entryLe :=
    List.sorted_insertionSort entryLe (positiveEntries table)
  have hne := pairwise_ne_fst_sorted_commands table
  refine (hs.and hne).imp ?_
  intro a b h
  obtain ⟨h1, h2⟩ := h
  unfold entryLe at h1
  omega

example :
    (runScorers (fun _ => some (fun _ => true)) "t"
      [.Regex "p" "a" 7] (initTable [("a", ⟨"A", "ac"⟩)]) []).1
      = [("a", ⟨"A", "ac"⟩, 7)] := by decide


lemma addDelta_keys (table : ScoreTable) (l : String) (d : Int) :
    (addDelta table l d).map (fun e => e.1) = table.map (fun e => e.1) := by
  induction table with
  | nil => rfl
  | cons e rest ih =>
    simp only [addDelta]
    split
    · simp
    · simp [ih]

lemma keyPresent_addDelta (table : ScoreTable) (l : String) (d : Int) (l2 : String) :
    keyPresent (addDelta table l d) l2 = keyPresent table l2 := by
  induction table with
  | nil => rfl
  | cons e rest ih =>
    simp only [addDelta]
    split
    · simp [keyPresent]
    · simp only [keyPresent, List.any_cons] at ih ⊢
      rw [ih]

lemma scoreOf_addDelta (table : ScoreTable) (l label : String) (d : Int) :
    scoreOf (addDelta table l d) label
      = scoreOf table label + (if (l == label) && keyPresent table l then d else 0) := by
  induction table with
  | nil => simp [scoreOf, addDelta, keyPresent]
  | cons e rest ih =>
    simp only [addDelta, keyPresent, List.any_cons]
    by_cases h1 : (e.1 == l) = true
    · rw [if_pos h1]
      by_cases h2 : (e.1 == label) = true
      · have hl : (l == label) = true := by
          rw [beq_iff_eq] at h1 h2 ⊢
          rw [← h1, h2]
        simp [scoreOf, h1, h2, hl]
      · have hl : (l == label) = false := by
          rw [beq_iff_eq] at h1 h2
          rw [beq_eq_false_iff_ne]
          intro hc
          exact h2 (h1.trans hc)
        simp [scoreOf, h1, h2, hl]
    · rw [if_neg h1]
      by_cases h2 : (e.1 == label) = true
      · have hl : (l == label) = false := by
          rw [beq_iff_eq] at h2
          rw [beq_eq_false_iff_ne]
          intro hc
          exact h1 (by rw [beq_iff_eq]; exact h2.trans hc.symm)
        simp [scoreOf, h1, h2, hl]
      · have h1f : (e.1 == l) = false := by simpa using h1
        simp only [scoreOf, h2, if_false, Bool.false_eq_true, ite_false]
        rw [ih]
        simp only [keyPresent, List.any_cons, h1f, Bool.false_or]

lemma applyMulti_cons (p : String × Int) (rest : List (String × Int)) (table : ScoreTable) :
    applyMulti (p :: rest) table = applyMulti rest (addDelta table p.1 p.2) := rfl

lemma keyPresent_applyMulti (scores : List (String × Int)) (table : ScoreTable) (l2 : String) :
    keyPresent (applyMulti scores table) l2 = keyPresent table l2 := by
  induction scores generalizing table with
  | nil => rfl
  | cons p rest ih =>
    rw [applyMulti_cons, ih, keyPresent_addDelta]

lemma sumDeltasFor_cons (label : String) (p : String × Int) (rest : List (String × Int)) :
    sumDeltasFor label (p :: rest)
      = (if p.1 == label then p.2 else 0) + sumDeltasFor label rest := by
  simp only [sumDeltasFor, List.filter_cons]
  split
  · simp
  · simp

lemma scoreOf_applyMulti (scores : List (String × Int)) (table : ScoreTable)
    (label : String) (h : keyPresent table label = true) :
    scoreOf (applyMulti scores table) label
      = scoreOf table label + sumDeltasFor label scores := by
  induction scores generalizing table with
  | nil => simp [applyMulti, sumDeltasFor]
  | cons p rest ih =>
    rw [applyMulti_cons, ih _ (by rw [keyPresent_addDelta]; exact h),
      scoreOf_addDelta, sumDeltasFor_cons]
    by_cases hp : (p.1 == label) = true
    · have hk : keyPresent table p.1 = true := by
        rw [beq_iff_eq] at hp
        rw [hp]
        exact h
      simp [hp, hk]
      try omega
    · simp [hp]
      try omega

lemma addDelta_eq_applyMulti_single (table : ScoreTable) (lbl : String) (d : Int) :
    addDelta table lbl d = applyMulti [(lbl, d)] table := rfl

lemma runScorer_snd (R : String → Option (String → Bool)) (t : String)
    (table : ScoreTable) (checks : List Bool) (s : Scorer) :
    (runScorer R t table checks s).2 = if consumesCheck s then checks.tail else checks := by
  cases s <;> rfl

lemma keyPresent_runScorer (R : String → Option (String → Bool)) (t : String)
    (table : ScoreTable) (checks : List Bool) (s : Scorer) (l2 : String) :
    keyPresent (runScorer R t table checks s).1 l2 = keyPresent table l2 := by
  cases s <;> simp only [runScorer] <;> split <;>
    simp [keyPresent_addDelta, keyPresent_applyMulti]

lemma runScorer_scoreOf (R : String → Option (String → Bool)) (t : String)
    (table : ScoreTable) (checks : List Bool) (s : Scorer) (label : String)
    (h : keyPresent table label = true) :
    scoreOf (runScorer R t table checks s).1 label
      = scoreOf table label + deltaFor label (s, scorerMatched R t checks s) := by
  cases s with
  | Regex r lbl d =>
    simp only [runScorer, scorerMatched, deltaFor, scorerEffects]
    by_cases hm : regexMatch R r t = true
    · rw [if_pos hm, if_pos hm, addDelta_eq_applyMulti_single, scoreOf_applyMulti _ _ _ h]
    · simp [hm]
  | Command c lbl d =>
    simp only [runScorer, scorerMatched, deltaFor, scorerEffects]
    by_cases hm : checks.headD false = true
    · rw [if_pos hm, if_pos hm, addDelta_eq_applyMulti_single, scoreOf_applyMulti _ _ _ h]
    · have hm2 : checks.headD false = false := by simpa using hm
      simp [List.headD_eq_head?_getD] at hm2
      simp [hm2]
  | RegexMulti r scores =>
    simp only [runScorer, scorerMatched, deltaFor, scorerEffects]
    by_cases hm : regexMatch R r t = true
    · rw [if_pos hm, if_pos hm, scoreOf_applyMulti _ _ _ h]
    · simp [hm]
  | CommandMulti c scores =>
    simp only [runScorer, scorerMatched, deltaFor, scorerEffects]
    by_cases hm : checks.headD false = true
    · rw [if_pos hm, if_pos hm, scoreOf_applyMulti _ _ _ h]
    · have hm2 : checks.headD false = false := by simpa using hm
      simp [List.headD_eq_head?_getD] at hm2
      simp [hm2]

lemma runScorers_cons (R : String → Option (String → Bool)) (t : String) (s : Scorer)
    (ss : List Scorer) (table : ScoreTable) (checks : List Bool) :
    runScorers R t (s :: ss) table checks
      = runScorers R t ss (runScorer R t table checks s).1 (runScorer R t table checks s).2 :=
  rfl

lemma scoreOf_runScorers (R : String → Option (String → Bool)) (t : String)
    (ss : List Scorer) (table : ScoreTable) (checks : List Bool) (label : String)
    (h : keyPresent table label = true) :
    scoreOf (runScorers R t ss table checks).1 label
      = scoreOf table label + totalDelta label (annotate R t ss checks) := by
  induction ss generalizing table checks with
  | nil => simp [runScorers, totalDelta, annotate]
  | cons s ss ih =>
    rw [runScorers_cons, ih _ _ (by rw [keyPresent_runScorer]; exact h),
      runScorer_scoreOf _ _ _ _ _ _ h, runScorer_snd]
    simp only [annotate, totalDelta, List.map_cons, List.sum_cons]
    omega

lemma scoreOf_initTable (commands : List (String × Command)) (label : String) :
    scoreOf (initTable commands) label = 0 := by
  induction commands with
  | nil => rfl
  | cons c rest ih =>
    simp only [initTable, List.map_cons, scoreOf]
    split
    · rfl
    · exact ih

/-- C5: starting from zero, a label's final score equals the sum of the
deltas of every scorer whose predicate matched and which targets that label,
and that sum is invariant under any reordering of the annotated scorer list. -/
theorem final_score_sum_order_free (R : String → Option (String → Bool)) (t : String)
    (commands : List (String × Command)) (ss : List Scorer) (checks : List Bool)
    (label : String) (h : keyPresent (initTable commands) label = true) :
    scoreOf (runScorers R t ss (initTable commands) checks).1 label
        = 0 + totalDelta label (annotate R t ss checks)
    ∧ ∀ ps : List (Scorer × Bool), List.Perm (annotate R t ss checks) ps →
        totalDelta label (annotate R t ss checks) = totalDelta label ps := by
  constructor
  · rw [scoreOf_runScorers _ _ _ _ _ _ h, scoreOf_initTable]
  · intro ps hp
    exact (hp.map (deltaFor label)).sum_eq


lemma rdropWs_spec (l : List Char) :
    l = (l.reverse.dropWhile isWs).reverse ++ (l.reverse.takeWhile isWs).reverse
    ∧ (∀ ch ∈ (l.reverse.takeWhile isWs).reverse, isWs ch = true)
    ∧ ∀ ch, (l.reverse.dropWhile isWs).reverse.getLast? = some ch → isWs ch = false := by
  refine ⟨?_, ?_, ?_⟩
  · have h1 : (l.reverse.dropWhile isWs).reverse ++ (l.reverse.takeWhile isWs).reverse
        = (l.reverse.takeWhile isWs ++ l.reverse.dropWhile isWs).reverse := by
      rw [List.reverse_append]
    rw [h1, List.takeWhile_append_dropWhile, List.reverse_reverse]
  · intro ch hch
    rw [List.mem_reverse] at hch
    exact List.mem_takeWhile_imp hch
  · intro ch h
    rw [List.getLast?_reverse] at h
    have hd := List.head?_dropWhile_not isWs l.reverse
    rw [h] at hd
    simpa using hd

/-- C6 (counterexample): for the text payload " x" the matching text keeps
the leading space — it is the payload trimmed at the end only, not the
trimmed payload (`str::trim`) the claim describes. -/
theorem get_text_matching_cex :
    Data.get_text_for_matching "" (Data.Text " x") = " x"
    ∧ trimBoth " x" = "x"
    ∧ Data.get_text_for_matching "" (Data.Text " x") ≠ trimBoth " x" := by
  refine ⟨?_, ?_, ?_⟩ <;> decide

/-- C6 (amended): for a Text payload the matching text is the payload with
its trailing whitespace removed (a prefix of the payload; the dropped suffix
is all whitespace; the kept part does not end in whitespace — so leading
whitespace survives); for a Binary payload it is the whitespace-trimmed MIME
probe output for the persisted bytes. -/
theorem get_text_matching_characterization (mime s : String) (bs : List Nat) :
    (∃ w, s.data = (Data.get_text_for_matching mime (Data.Text s)).data ++ w
        ∧ (∀ ch ∈ w, isWs ch = true)
        ∧ ∀ ch, (Data.get_text_for_matching mime (Data.Text s)).data.getLast? = some ch
            → isWs ch = false)
    ∧ (∃ w1 w2,
        mime.data = w1 ++ ((Data.get_text_for_matching mime (Data.Binary bs)).data ++ w2)
        ∧ (∀ ch ∈ w1, isWs ch = true) ∧ (∀ ch ∈ w2, isWs ch = true)) := by
  constructor
  · obtain ⟨h1, h2, h3⟩ := rdropWs_spec s.data
    exact ⟨(s.data.reverse.takeWhile isWs).reverse, h1, h2, h3⟩
  · obtain ⟨h1, h2, h3⟩ := rdropWs_spec (mime.data.dropWhile isWs)
    refine ⟨mime.data.takeWhile isWs,
      ((mime.data.dropWhile isWs).reverse.takeWhile isWs).reverse, ?_, ?_, h2⟩
    · show mime.data = mime.data.takeWhile isWs
        ++ (((mime.data.dropWhile isWs).reverse.dropWhile isWs).reverse
          ++ ((mime.data.dropWhile isWs).reverse.takeWhile isWs).reverse)
      rw [← h1, List.takeWhile_append_dropWhile]
    · intro ch hch
      exact List.mem_takeWhile_imp hch

/-- C7: a pattern that fails to compile makes exactly that rule a non-match:
the score table and check stream pass through unchanged while the remaining
rules are still evaluated, and a validated run still produces an outcome —
an invalid pattern never aborts the run. -/
theorem invalid_pattern_nonfatal (R : String → Option (String → Bool)) (t r : String)
    (hr : R r = none) (lbl : String) (d : Int) (scores : List (String × Int))
    (ss : List Scorer) (table : ScoreTable) (checks : List Bool) (c : Config)
    (hv : validate_environment c = Except.ok ()) (dt : Data) (fm : String) :
    runScorers R t (Scorer.Regex r lbl d :: ss) table checks
        = runScorers R t ss table checks
    ∧ runScorers R t (Scorer.RegexMulti r scores :: ss) table checks
        = runScorers R t ss table checks
    ∧ ∃ out, faucetRun c R dt fm checks = Except.ok out := by
  have hm : regexMatch R r t = false := by simp [regexMatch, hr]
  refine ⟨?_, ?_, ?_⟩
  · rw [runScorers_cons]
    simp [runScorer, hm]
  · rw [runScorers_cons]
    simp [runScorer, hm]
  · unfold faucetRun
    rw [hv]
    exact ⟨_, rfl⟩

theorem invalid_pattern_nonfatal_witness :
    ((fun _ : String => (none : Option (String → Bool))) "bad[" = none
      ∧ validate_environment ⟨[("a", ⟨"A", "ac"⟩)], [], 10, 100⟩ = Except.ok ())
    ∧ (runScorers (fun _ => none) "t" (Scorer.Regex "bad[" "a" 3 :: []) [("a", ⟨"A", "ac"⟩, 0)] []
        = runScorers (fun _ => none) "t" [] [("a", ⟨"A", "ac"⟩, 0)] []
      ∧ runScorers (fun _ => none) "t" (Scorer.RegexMulti "bad[" [("a", 3)] :: []) [("a", ⟨"A", "ac"⟩, 0)] []
        = runScorers (fun _ => none) "t" [] [("a", ⟨"A", "ac"⟩, 0)] []
      ∧ ∃ out, faucetRun ⟨[("a", ⟨"A", "ac"⟩)], [], 10, 100⟩ (fun _ => none) (Data.Text "t") "" []
          = Except.ok out) := by
  refine ⟨⟨rfl, rfl⟩, ?_⟩
  exact invalid_pattern_nonfatal (fun _ => none) "t" "bad[" rfl "a" 3 [("a", 3)] []
    [("a", ⟨"A", "ac"⟩, 0)] [] ⟨[("a", ⟨"A", "ac"⟩)], [], 10, 100⟩ rfl
    (Data.Text "t") ""

/-- Sample score table used by witnesses. -/
def tblW : ScoreTable := [("a", ⟨"A", "ac"⟩, 0), ("b", ⟨"B", "bc"⟩, 0)]

/-- Sample multi-target effect list used by witnesses. -/
def scoresW : List (String × Int) := [("a", 2), ("b", 3)]

lemma runScorers_snd (R : String → Option (String → Bool)) (t : String)
    (ss : List Scorer) (table : ScoreTable) (checks : List Bool) :
    (runScorers R t ss table checks).2 = checks.drop (checksUsed ss) := by
  induction ss generalizing table checks with
  | nil => simp [runScorers, checksUsed]
  | cons s ss ih =>
    rw [runScorers_cons, ih, runScorer_snd]
    cases s with
    | Regex r lbl d => simp [consumesCheck, checksUsed]
    | Command c lbl d => simp [consumesCheck, checksUsed, List.drop_tail]
    | RegexMulti r scores => simp [consumesCheck, checksUsed]
    | CommandMulti c scores => simp [consumesCheck, checksUsed, List.drop_tail]

/-- C8: a multi-target check-command rule consumes exactly one exit status
per run, whose value gates every listed (label, delta) pair at once: on
success each targeted label gains the sum of its listed deltas; on failure
the table is untouched; in both cases the remaining rules are evaluated on
the rest of the stream. -/
theorem command_multi_gating (R : String → Option (String → Bool)) (t c : String)
    (scores : List (String × Int)) (ss : List Scorer) (table : ScoreTable)
    (b : Bool) (bs : List Bool) (label : String)
    (hkey : keyPresent table label = true) :
    runScorers R t (Scorer.CommandMulti c scores :: ss) table (b :: bs)
        = runScorers R t ss (if b then applyMulti scores table else table) bs
    ∧ (b = false →
        runScorers R t (Scorer.CommandMulti c scores :: ss) table (b :: bs)
          = runScorers R t ss table bs)
    ∧ scoreOf (applyMulti scores table) label
        = scoreOf table label + sumDeltasFor label scores
    ∧ (runScorers R t (Scorer.CommandMulti c scores :: ss) table (b :: bs)).2
        = bs.drop (checksUsed ss) := by
  refine ⟨?_, ?_, scoreOf_applyMulti _ _ _ hkey, ?_⟩
  · rw [runScorers_cons]
    cases b <;> simp [runScorer]
  · intro hb
    subst hb
    rw [runScorers_cons]
    simp [runScorer]
  · rw [runScorers_snd]
    simp [checksUsed, consumesCheck]

theorem command_multi_gating_witness :
    keyPresent tblW "a" = true
    ∧ (runScorers (fun _ => none) "t" (Scorer.CommandMulti "chk" scoresW :: []) tblW (true :: [])
        = runScorers (fun _ => none) "t" [] (if true then applyMulti scoresW tblW else tblW) []
      ∧ (true = false →
          runScorers (fun _ => none) "t" (Scorer.CommandMulti "chk" scoresW :: []) tblW (true :: [])
            = runScorers (fun _ => none) "t" [] tblW [])
      ∧ scoreOf (applyMulti scoresW tblW) "a" = scoreOf tblW "a" + sumDeltasFor "a" scoresW
      ∧ (runScorers (fun _ => none) "t" (Scorer.CommandMulti "chk" scoresW :: []) tblW (true :: [])).2
          = ([] : List Bool).drop (checksUsed [])) :=
  ⟨by decide, command_multi_gating (fun _ => none) "t" "chk" scoresW [] tblW true [] "a" (by decide)⟩

/-- C9: absent threshold fields default to 10 (min) and 100 (max), and a
configuration whose min threshold is not strictly below its max threshold
makes the run fail with the validation error, for every scoring input —
before any scoring can occur. -/
theorem thresholds_defaults_and_guard (commands : List (String × Command))
    (scorers : List Scorer) (c : Config)
    (h : c.auto_select_min_threshold ≥ c.auto_select_max_threshold) :
    (Config.ofFields commands scorers none none).auto_select_min_threshold = 10
    ∧ (Config.ofFields commands scorers none none).auto_select_max_threshold = 100
    ∧ ∀ (R : String → Option (String → Bool)) (dt : Data) (fm : String)
        (checks : List Bool),
        faucetRun c R dt fm checks
          = Except.error "Bad auto select values: min >= max" := by
  refine ⟨rfl, rfl, fun R dt fm checks => ?_⟩
  unfold faucetRun validate_environment
  rw [if_pos h]

theorem thresholds_defaults_and_guard_witness :
    (⟨[("a", ⟨"A", "ac"⟩)], [], 50, 10⟩ : Config).auto_select_min_threshold
        ≥ (⟨[("a", ⟨"A", "ac"⟩)], [], 50, 10⟩ : Config).auto_select_max_threshold
    ∧ ((Config.ofFields [] [] none none).auto_select_min_threshold = 10
      ∧ (Config.ofFields [] [] none none).auto_select_max_threshold = 100
      ∧ ∀ (R : String → Option (String → Bool)) (dt : Data) (fm : String)
          (checks : List Bool),
          faucetRun ⟨[("a", ⟨"A", "ac"⟩)], [], 50, 10⟩ R dt fm checks
            = Except.error "Bad auto select values: min >= max") :=
  ⟨by decide, thresholds_defaults_and_guard [] [] ⟨[("a", ⟨"A", "ac"⟩)], [], 50, 10⟩ (by decide)⟩


/-- C10: in the interactive outcome the menu reply is trimmed and resolved
by exact display-string equality against the entire score table (all
configured candidates, in configuration order), not against the presented
shortlist: the resolved entry is the first whose display equals the trimmed
reply, with no condition on its score, and the presented list is irrelevant
to the resolution. -/
theorem menu_resolution (scored : ScoreTable) (reply : String)
    (e : String × Command × Int) (L L2 : List RankEntry) :
    (resolveSelection scored reply = some e
      ↔ ∃ pre post, scored = pre ++ e :: post
          ∧ e.2.1.display = trimBoth reply
          ∧ ∀ x ∈ pre, x.2.1.display ≠ trimBoth reply)
    ∧ launchedCommand scored reply (Outcome.interactive L)
        = launchedCommand scored reply (Outcome.interactive L2) := by
  refine ⟨?_, rfl⟩
  induction scored with
  | nil =>
    constructor
    · intro h
      exact absurd h (by simp [resolveSelection])
    · rintro ⟨pre, post, heq, -, -⟩
      cases pre <;> simp at heq
  | cons a rest ih =>
    by_cases ha : (a.2.1.display == trimBoth reply) = true
    · rw [show resolveSelection (a :: rest) reply = some a from
        List.find?_cons_of_pos _ ha]
      constructor
      · intro h
        obtain rfl : a = e := by simpa using h
        exact ⟨[], rest, rfl, by simpa using ha, by simp⟩
      · rintro ⟨pre, post, heq, hdisp, hpre⟩
        cases pre with
        | nil =>
          obtain ⟨rfl, rfl⟩ : a = e ∧ rest = post := by simpa using heq
          rfl
        | cons p ps =>
          obtain ⟨rfl, -⟩ : a = p ∧ rest = ps ++ e :: post := by simpa using heq
          exact absurd (by simpa using ha) (hpre a (by simp))
    · rw [show resolveSelection (a :: rest) reply = resolveSelection rest reply from
        List.find?_cons_of_neg _ ha]
      rw [ih]
      constructor
      · rintro ⟨pre, post, heq, hdisp, hpre⟩
        refine ⟨a :: pre, post, by rw [heq, List.cons_append], hdisp, ?_⟩
        intro x hx
        rcases List.mem_cons.mp hx with hx | hx
        · subst hx
          simpa using ha
        · exact hpre x hx
      · rintro ⟨pre, post, heq, hdisp, hpre⟩
        cases pre with
        | nil =>
          obtain ⟨rfl, -⟩ : a = e ∧ rest = post := by simpa using heq
          exact absurd hdisp (by simpa using ha)
        | cons p ps =>
          obtain ⟨rfl, hrest⟩ : a = p ∧ rest = ps ++ e :: post := by simpa using heq
          exact ⟨ps, post, hrest, hdisp, fun x hx => hpre x (List.mem_cons_of_mem _ hx)⟩


theorem final_score_sum_order_free_witness :
    keyPresent (initTable [("a", ⟨"A", "ac"⟩)]) "a" = true
    ∧ (scoreOf (runScorers (fun _ => some (fun _ => true)) "t" [Scorer.Regex "p" "a" 3]
          (initTable [("a", ⟨"A", "ac"⟩)]) []).1 "a"
        = 0 + totalDelta "a"
            (annotate (fun _ => some (fun _ => true)) "t" [Scorer.Regex "p" "a" 3] [])
      ∧ ∀ ps : List (Scorer × Bool),
          List.Perm (annotate (fun _ => some (fun _ => true)) "t" [Scorer.Regex "p" "a" 3] []) ps →
          totalDelta "a" (annotate (fun _ => some (fun _ => true)) "t" [Scorer.Regex "p" "a" 3] [])
            = totalDelta "a" ps) :=
  ⟨by decide, final_score_sum_order_free (fun _ => some (fun _ => true)) "t"
    [("a", ⟨"A", "ac"⟩)] [Scorer.Regex "p" "a" 3] [] "a" (by decide)⟩

end Faucet
